import Mathlib

/-!
Verification of the note-reader RAG pipeline (src/app.py) against its
natural-language specification.

The pipeline's own code (`load_any_notes`, `NoteReader.initialize_notes`,
`NoteReader.format_docs`, `NoteReader.summarize_notes`, ...) is embedded
shallowly below.  External collaborators (file parsers, the embedding
service, the vector store, the language model) are modelled as explicit
oracle inputs, since the Python code only consumes them through narrow
interfaces and catches their exceptions.  The text splitter
(`RecursiveCharacterTextSplitter`, configured at src/app.py lines 89-95)
is third-party library code not present in the repository sources, so it
is modelled from the specification's description of the chunking
algorithm; the definitions concerned say so in their doc comments.
-/

set_option autoImplicit false

namespace NoteApp

/-! ### Chunker, modelled from the spec -/

/-- Modelled from the spec: part of the chunking algorithm of the
`RecursiveCharacterTextSplitter` used at src/app.py lines 89-95, whose
source is not in the repository.  Finds the first occurrence of the
separator `sep` in `text`; returns the piece up to and including the
separator, together with the remainder. -/
def breakOnSep (sep : List Char) : List Char → Option (List Char × List Char)
  | [] => none
  | c :: cs =>
    if sep.isPrefixOf (c :: cs) then some (sep, (c :: cs).drop sep.length)
    else
      match breakOnSep sep cs with
      | none => none
      | some (a, b) => some (c :: a, b)

/-- Modelled from the spec: fuel-indexed splitting of a text on a
separator, keeping each separator occurrence attached to the end of the
piece it closes (so that no text is lost, as required by the spec's
reconstruction invariant).  A trailing empty fragment is dropped. -/
def splitSepFuel (sep : List Char) : Nat → List Char → List (List Char)
  | _, [] => []
  | 0, text => [text]
  | fuel + 1, text =>
    match breakOnSep sep text with
    | none => [text]
    | some (a, b) => a :: splitSepFuel sep fuel b

/-- Modelled from the spec: split a text on one separator of the
hierarchy.  The empty separator denotes the character-level break of the
spec's hierarchy and splits the text into single characters. -/
def splitBySep (sep : List Char) (text : List Char) : List (List Char) :=
  match sep with
  | [] => text.map (fun c => [c])
  | _ :: _ => splitSepFuel sep text.length text

/-- Modelled from the spec: the hierarchical/recursive split of the
chunking algorithm.  Try the coarsest separator first; any piece still
longer than `chunkSize` is split again with the next finer separator;
a piece that no remaining separator can break is kept whole as an
indivisible (possibly oversized) unit.  Empty fragments are dropped. -/
def splitUnits (chunkSize : Nat) : List (List Char) → List Char → List (List Char)
  | [], text => if text.isEmpty then [] else [text]
  | sep :: rest, text =>
    if text.length ≤ chunkSize then (if text.isEmpty then [] else [text])
    else ((splitBySep sep text).map (splitUnits chunkSize rest)).flatten

/-- The last `n` characters of a list (all of it when it is shorter). -/
def lastChars (n : Nat) (l : List Char) : List Char := l.drop (l.length - n)

/-- Modelled from the spec: the greedy merge step of the chunking
algorithm.  Adjacent units are merged until adding the next unit would
exceed `chunkSize`; then the current chunk is emitted and a new chunk
begins `chunkOverlap` characters before the end of the previous chunk.
Per the spec's design note, the overlap length is a target, not a hard
guarantee: it is shortened when re-including it would push the new chunk
past `chunkSize`.  Each produced chunk is paired with the length of the
overlap prefix it re-includes from the previous chunk.  `pre` is the
overlap carried into the current chunk and `cur` its fresh content. -/
def mergeUnits (chunkSize chunkOverlap : Nat) (pre cur : List Char) :
    List (List Char) → List (List Char × Nat)
  | [] => [(pre ++ cur, pre.length)]
  | u :: us =>
    if cur.isEmpty = true ∨ pre.length + cur.length + u.length ≤ chunkSize then
      mergeUnits chunkSize chunkOverlap pre (cur ++ u) us
    else
      (pre ++ cur, pre.length) ::
        mergeUnits chunkSize chunkOverlap
          (lastChars (min chunkOverlap (chunkSize - u.length)) (pre ++ cur)) u us

/-- Modelled from the spec: the full chunking algorithm of the text
splitter configured at src/app.py lines 89-95 — hierarchical split into
units followed by the greedy merge with overlap.  Each chunk carries the
length of its overlap prefix. -/
def chunkText (chunkSize chunkOverlap : Nat) (seps : List (List Char))
    (text : List Char) : List (List Char × Nat) :=
  match splitUnits chunkSize seps text with
  | [] => []
  | u :: us => mergeUnits chunkSize chunkOverlap [] [] (u :: us)

/-! ### Data model and document loader (src/app.py lines 39-65) -/

/-- A loaded document record: the `source` metadata entry (the file path
set by the loaders) and the `page_content` text. -/
structure Document where
  source : String
  page_content : String
deriving DecidableEq

deriving instance DecidableEq for Except

/-- A file discovered under the notes directory, together with the result
of handing it to its format's loader: either the documents it yields, or
the message of the exception its parsing raises.  The parsers themselves
(TextLoader, PyPDFLoader, Docx2txtLoader) are external collaborators and
enter the model only through this outcome. -/
structure FileEntry where
  path : String
  parseResult : Except String (List Document)
deriving DecidableEq

/-- The notes directory tree, holding the discovered files grouped by the
extension loops of `load_any_notes` (src/app.py lines 52-63): first the
`.md`/`.txt` files, then the `.pdf` files, then the `.docx` files. -/
structure NotesDir where
  mdTxtFiles : List FileEntry
  pdfFiles : List FileEntry
  docxFiles : List FileEntry
deriving DecidableEq

/-- Sequentially accumulate the documents of each file, as the
`docs.extend(...)` loops of `load_any_notes` do.  There is no per-file
exception handling in the source, so the first parse failure aborts the
whole traversal and propagates its error. -/
def loadFiles : List FileEntry → Except String (List Document)
  | [] => Except.ok []
  | f :: fs =>
    match f.parseResult with
    | Except.error e => Except.error e
    | Except.ok ds =>
      match loadFiles fs with
      | Except.error e => Except.error e
      | Except.ok rest => Except.ok (ds ++ rest)

/-- Embedding of `load_any_notes` (src/app.py lines 49-65): load the
`.md`/`.txt` files, then the `.pdf` files, then the `.docx` files, in
that order, extending one `docs` list. -/
def load_any_notes (d : NotesDir) : Except String (List Document) :=
  loadFiles (d.mdTxtFiles ++ d.pdfFiles ++ d.docxFiles)

/-- The documents of the files that parse successfully, in traversal
order.  Used to state what a fault-tolerant loader would return. -/
def okDocs (fs : List FileEntry) : List Document :=
  (fs.map (fun f =>
    match f.parseResult with
    | Except.ok ds => ds
    | Except.error _ => [])).flatten

/-- The directory produced for a path that did not exist. -/
def emptyNotesDir : NotesDir := ⟨[], [], []⟩

/-- Embedding of `Path(config.notes_dir).mkdir(parents=True, exist_ok=True)`
(src/app.py line 47): a missing notes directory is created empty,
an existing one is left as it is. -/
def ensureNotesDir : Option NotesDir → NotesDir
  | none => emptyNotesDir
  | some d => d

/-- Embedding of the `NotesConfig` dataclass (src/app.py lines 39-44)
together with the separator hierarchy passed to the splitter
(src/app.py line 92). -/
structure NotesConfig where
  chunk_size : Nat
  chunk_overlap : Nat
  separators : List (List Char)
deriving DecidableEq

/-- The module-level `config` (src/app.py line 46) with the splitter
arguments of src/app.py lines 89-93. -/
def config : NotesConfig :=
  ⟨1200, 150, [['\n', '\n'], ['\n'], [' '], []]⟩

/-- Embedding of `text_splitter.split_documents(raw_docs)` (src/app.py
line 95): chunk each document's text, each chunk keeping its source
path.  Uses the spec-modelled `chunkText` for the splitter itself. -/
def split_documents (cfg : NotesConfig) (raw : List Document) : List Document :=
  (raw.map (fun d =>
    (chunkText cfg.chunk_size cfg.chunk_overlap cfg.separators
        d.page_content.data).map
      (fun p => Document.mk d.source (String.mk p.1)))).flatten

/-! ### Context assembly and display formatting (src/app.py lines 112-127) -/

/-- Embedding of Python's `Path(source).name`: the final path component,
ignoring trailing slashes. -/
def baseName (s : String) : String :=
  String.mk
    (((s.data.reverse.dropWhile (fun c => c = '/')).takeWhile
        (fun c => c ≠ '/')).reverse)

/-- Embedding of `NoteReader.format_docs` (src/app.py lines 121-127):
each retrieved chunk's text prefixed with a bracketed tag holding the
base filename of its source, joined by the fixed separator, in the
order given. -/
def format_docs (docs : List Document) : String :=
  String.intercalate "\n\n---\n\n"
    (docs.map (fun d =>
      "[SOURCE: " ++ baseName d.source ++ "]\n" ++ d.page_content))

/-- Embedding of `NoteReader.format_notes_for_display` (src/app.py
lines 112-119). -/
def format_notes_for_display (docs : List Document) : String :=
  String.intercalate "\n\n"
    (docs.map (fun d =>
      "📄 " ++ baseName d.source ++ "\n" ++ d.page_content.take 200 ++ "..."))

/-- Embedding of the rendered `RAG_PROMPT` template (src/app.py
lines 134-145) with the `question` and `context` placeholders filled. -/
def RAG_PROMPT (question context : String) : String :=
  "You are a helpful notes assistant. Use only the provided context to answer the question.\nCite sources like [SOURCE: filename.md] when relevant.\n\nQuestion:\n"
    ++ question ++ "\n\nContext:\n" ++ context
    ++ "\n\nAnswer succinctly, with bullet points when helpful, and list sources at the end."

/-! ### The NoteReader orchestrator (src/app.py lines 67-167) -/

/-- The oracle inputs of one-time initialization: whether the notes
directory exists (and its contents when it does), and the outcome of
`FAISS.from_documents(docs, embeddings)` — the one external call of the
index-build step, which either succeeds or raises with a message. -/
structure InitEnv where
  dir : Option NotesDir
  embedOutcome : Except String Unit

/-- The fields of a `NoteReader` instance (src/app.py lines 68-72).  The
vector store and the retriever are represented by the chunk list they
index; the RAG chain by the retriever chunk list it captured. -/
structure NoteReader where
  vectorstore : Option (List Document)
  retriever : Option (List Document)
  rag_chain : Option (List Document)
  notes_content : String
deriving DecidableEq

/-- The field values set in `NoteReader.__init__` before
`initialize_notes` runs (src/app.py lines 68-72). -/
def emptyReader : NoteReader := ⟨none, none, none, ""⟩

/-- Embedding of `NoteReader.setup_rag_chain` (src/app.py lines 129-152):
a no-op without a retriever, otherwise stores the chain built over it. -/
def setup_rag_chain (r : NoteReader) : NoteReader :=
  match r.retriever with
  | none => r
  | some docs => { r with rag_chain := some docs }

/-- Embedding of `NoteReader.initialize_notes` (src/app.py lines 75-110):
load the documents, short-circuit when none are found, otherwise chunk
them, build the vector store and retriever, store the display content
and set up the RAG chain; any exception of the load or of the index
build is caught and recorded in `notes_content`. -/
def initialize_notes (env : InitEnv) : NoteReader :=
  match load_any_notes (ensureNotesDir env.dir) with
  | Except.error e => { emptyReader with notes_content := "Error loading notes: " ++ e }
  | Except.ok raw_docs =>
    if raw_docs.isEmpty then
      { emptyReader with
          notes_content := "No notes found. Please add some documents to the ./notes folder." }
    else
      let docs := split_documents config raw_docs
      match env.embedOutcome with
      | Except.error e =>
        { emptyReader with notes_content := "Error loading notes: " ++ e }
      | Except.ok _ =>
        setup_rag_chain
          { vectorstore := some docs
            retriever := some docs
            rag_chain := none
            notes_content := format_notes_for_display raw_docs }

/-- The oracle inputs of one query: the outcome of the retriever's
similarity search for the question (the top-k chunks, or the message of
the exception it raises) and the outcome of the language-model call on
the rendered prompt. -/
structure QueryEnv where
  retrieved : String → Except String (List Document)
  generate : String → Except String String

/-- Embedding of `NoteReader.summarize_notes` (src/app.py lines 158-167).
Besides the returned answer string, the result counts the external calls
the invocation makes: the second component is the number of retrieval
calls, the third the number of Answer Generator calls. -/
def summarize_notes (r : NoteReader) (q : String) (env : QueryEnv) :
    String × Nat × Nat :=
  match r.rag_chain with
  | none =>
    ("Notes system not properly initialized. Please check that you have documents in the ./notes folder.",
      0, 0)
  | some _ =>
    match env.retrieved q with
    | Except.error e => ("Error processing your question: " ++ e, 1, 0)
    | Except.ok ds =>
      match env.generate (RAG_PROMPT q (format_docs ds)) with
      | Except.ok resp => (resp, 1, 1)
      | Except.error e => ("Error processing your question: " ++ e, 1, 1)

/-! ### Concrete instances used by counterexamples and witnesses -/

/-- A directory whose only markdown file parses successfully. -/
def dirOneGood : NotesDir :=
  ⟨[⟨"./notes/a.md", Except.ok [⟨"./notes/a.md", "Paris is the capital of France."⟩]⟩],
    [], []⟩

/-- An initialization run in which loading succeeds but the embedding
call of the index build raises. -/
def envEmbedFail : InitEnv := ⟨some dirOneGood, Except.error "boom"⟩

/-- A directory in which the second markdown file fails to parse while
the first and third parse successfully. -/
def dirSecondBad : NotesDir :=
  ⟨[⟨"./notes/a.md", Except.ok [⟨"./notes/a.md", "A"⟩]⟩,
    ⟨"./notes/b.md", Except.error "corrupt"⟩,
    ⟨"./notes/c.md", Except.ok [⟨"./notes/c.md", "C"⟩]⟩], [], []⟩

/-- A query environment whose retrieval and generation both succeed. -/
def qenvOk : QueryEnv :=
  ⟨fun _ => Except.ok [⟨"./notes/a.md", "Paris is the capital of France."⟩],
    fun _ => Except.ok "Paris. [SOURCE: a.md]"⟩

/-- An initialization run over an existing directory with no files. -/
def envEmptyDir : InitEnv := ⟨some emptyNotesDir, Except.ok ()⟩

/-- An initialization run for which the notes directory does not exist. -/
def envNoDir : InitEnv := ⟨none, Except.ok ()⟩

/-- An initialization run in which everything succeeds. -/
def envAllGood : InitEnv := ⟨some dirOneGood, Except.ok ()⟩

/-! ### Lemmas about the splitting stage -/

theorem breakOnSep_append_eq {sep : List Char} {l a b : List Char}
    (h : breakOnSep sep l = some (a, b)) : a ++ b = l := by
  induction l generalizing a b with
  | nil => simp [breakOnSep] at h
  | cons c cs ih =>
    simp only [breakOnSep] at h
    by_cases hp : sep.isPrefixOf (c :: cs)
    · simp only [hp, if_pos, Option.some.injEq, Prod.mk.injEq] at h
      obtain ⟨ha, hb⟩ := h
      subst ha; subst hb
      obtain ⟨t, ht⟩ := List.isPrefixOf_iff_prefix.mp hp
      rw [← ht, List.drop_left]
    · simp only [hp] at h
      cases hrec : breakOnSep sep cs with
      | none => rw [hrec] at h; simp at h
      | some p =>
        obtain ⟨a', b'⟩ := p
        simp only [hrec, Bool.false_eq_true, if_false, Option.some.injEq,
          Prod.mk.injEq] at h
        obtain ⟨ha, hb⟩ := h
        subst ha; subst hb
        simpa using ih hrec

theorem breakOnSep_ne_nil {sep : List Char} (hsep : sep ≠ []) {l a b : List Char}
    (h : breakOnSep sep l = some (a, b)) : a ≠ [] := by
  induction l generalizing a b with
  | nil => simp [breakOnSep] at h
  | cons c cs ih =>
    simp only [breakOnSep] at h
    by_cases hp : sep.isPrefixOf (c :: cs)
    · simp only [hp, if_pos, Option.some.injEq, Prod.mk.injEq] at h
      obtain ⟨ha, _⟩ := h
      subst ha; exact hsep
    · simp only [hp] at h
      cases hrec : breakOnSep sep cs with
      | none => rw [hrec] at h; simp at h
      | some p =>
        obtain ⟨a', b'⟩ := p
        simp only [hrec, Bool.false_eq_true, if_false, Option.some.injEq,
          Prod.mk.injEq] at h
        obtain ⟨ha, _⟩ := h
        subst ha; simp

theorem splitSepFuel_flatten (sep : List Char) (fuel : Nat) (text : List Char) :
    (splitSepFuel sep fuel text).flatten = text := by
  induction fuel generalizing text with
  | zero => cases text <;> simp [splitSepFuel]
  | succ n ih =>
    cases text with
    | nil => simp [splitSepFuel]
    | cons c cs =>
      simp only [splitSepFuel]
      cases hbr : breakOnSep sep (c :: cs) with
      | none => simp
      | some p =>
        obtain ⟨a, b⟩ := p
        simp only [List.flatten_cons, ih b]
        exact breakOnSep_append_eq hbr

theorem splitSepFuel_ne_nil {sep : List Char} (hsep : sep ≠ []) (fuel : Nat)
    (text : List Char) : ∀ u ∈ splitSepFuel sep fuel text, u ≠ [] := by
  induction fuel generalizing text with
  | zero =>
    intro u hu
    cases text with
    | nil => simp [splitSepFuel] at hu
    | cons c cs => simp only [splitSepFuel, List.mem_singleton] at hu; subst hu; simp
  | succ n ih =>
    intro u hu
    cases text with
    | nil => simp [splitSepFuel] at hu
    | cons c cs =>
      simp only [splitSepFuel] at hu
      cases hbr : breakOnSep sep (c :: cs) with
      | none => rw [hbr] at hu; simp only [List.mem_singleton] at hu; subst hu; simp
      | some p =>
        obtain ⟨a, b⟩ := p
        rw [hbr] at hu
        rcases List.mem_cons.mp hu with h | h
        · subst h; exact breakOnSep_ne_nil hsep hbr
        · exact ih b u h

theorem splitBySep_flatten (sep text : List Char) :
    (splitBySep sep text).flatten = text := by
  cases sep with
  | nil =>
    simp only [splitBySep]
    induction text with
    | nil => simp
    | cons c cs ih => simp [ih]
  | cons s ss => exact splitSepFuel_flatten (s :: ss) text.length text

theorem splitBySep_ne_nil (sep text : List Char) :
    ∀ u ∈ splitBySep sep text, u ≠ [] := by
  cases sep with
  | nil =>
    intro u hu
    simp only [splitBySep, List.mem_map] at hu
    obtain ⟨c, _, hc⟩ := hu
    subst hc; simp
  | cons s ss =>
    exact splitSepFuel_ne_nil (by simp) text.length text

theorem splitUnits_flatten (chunkSize : Nat) (seps : List (List Char))
    (text : List Char) : (splitUnits chunkSize seps text).flatten = text := by
  induction seps generalizing text with
  | nil =>
    simp only [splitUnits]
    cases text <;> simp
  | cons sep rest ih =>
    simp only [splitUnits]
    by_cases hle : text.length ≤ chunkSize
    · simp only [hle, if_pos]
      cases text <;> simp
    · simp only [hle, if_neg, not_false_iff]
      have : ∀ parts : List (List Char),
          ((parts.map (splitUnits chunkSize rest)).flatten).flatten = parts.flatten := by
        intro parts
        induction parts with
        | nil => simp
        | cons p ps ihp => simp [ihp, ih p]
      rw [this (splitBySep sep text), splitBySep_flatten]

theorem splitUnits_ne_nil (chunkSize : Nat) (seps : List (List Char))
    (text : List Char) : ∀ u ∈ splitUnits chunkSize seps text, u ≠ [] := by
  induction seps generalizing text with
  | nil =>
    intro u hu
    simp only [splitUnits] at hu
    by_cases h : text.isEmpty
    · simp [h] at hu
    · simp only [h, if_neg, Bool.not_eq_true, List.mem_singleton] at hu
      subst hu
      simpa [List.isEmpty_iff] using h
  | cons sep rest ih =>
    intro u hu
    simp only [splitUnits] at hu
    by_cases hle : text.length ≤ chunkSize
    · simp only [hle, if_pos] at hu
      by_cases h : text.isEmpty
      · simp [h] at hu
      · simp only [h, if_neg, Bool.not_eq_true, List.mem_singleton] at hu
        subst hu
        simpa [List.isEmpty_iff] using h
    · simp only [hle, if_neg, not_false_iff, List.mem_flatten, List.mem_map] at hu
      obtain ⟨l, ⟨p, _, hp⟩, hul⟩ := hu
      subst hp
      exact ih p u hul

/-! ### Lemmas about the merge stage -/

theorem lastChars_length_le (n : Nat) (l : List Char) : (lastChars n l).length ≤ n := by
  simp only [lastChars, List.length_drop]
  omega

theorem lastChars_suffix (n : Nat) (l : List Char) : lastChars n l <:+ l :=
  List.drop_suffix _ l

theorem lastChars_zero (l : List Char) : lastChars 0 l = [] := by
  simp [lastChars]

theorem mergeUnits_drop_flatten (cs ov : Nat) (us : List (List Char)) :
    ∀ pre cur : List Char,
      ((mergeUnits cs ov pre cur us).map (fun p => p.1.drop p.2)).flatten =
        cur ++ us.flatten := by
  induction us with
  | nil =>
    intro pre cur
    simp [mergeUnits, List.drop_left]
  | cons u us ih =>
    intro pre cur
    simp only [mergeUnits]
    by_cases h : cur.isEmpty = true ∨ pre.length + cur.length + u.length ≤ cs
    · rw [if_pos h, ih]
      simp [List.append_assoc]
    · rw [if_neg h]
      simp only [List.map_cons, List.flatten_cons, List.drop_left, ih]

theorem mergeUnits_head (cs ov : Nat) (us : List (List Char)) :
    ∀ pre cur : List Char, ∃ w,
      (mergeUnits cs ov pre cur us).head? = some (pre ++ (cur ++ w), pre.length) := by
  induction us with
  | nil =>
    intro pre cur
    exact ⟨[], by simp [mergeUnits]⟩
  | cons u us ih =>
    intro pre cur
    simp only [mergeUnits]
    by_cases h : cur.isEmpty = true ∨ pre.length + cur.length + u.length ≤ cs
    · rw [if_pos h]
      obtain ⟨w, hw⟩ := ih pre (cur ++ u)
      exact ⟨u ++ w, by rw [hw]; simp [List.append_assoc]⟩
    · rw [if_neg h]
      exact ⟨[], by simp⟩

theorem mergeUnits_chain (cs ov : Nat) (us : List (List Char)) :
    ∀ pre cur : List Char,
      List.Chain' (fun p q => q.1.take q.2 <:+ p.1) (mergeUnits cs ov pre cur us) := by
  induction us with
  | nil =>
    intro pre cur
    simp [mergeUnits]
  | cons u us ih =>
    intro pre cur
    simp only [mergeUnits]
    by_cases h : cur.isEmpty = true ∨ pre.length + cur.length + u.length ≤ cs
    · rw [if_pos h]
      exact ih pre (cur ++ u)
    · rw [if_neg h]
      rw [List.chain'_cons']
      refine ⟨?_, ih _ u⟩
      intro q hq
      obtain ⟨w, hw⟩ := mergeUnits_head cs ov us
        (lastChars (min ov (cs - u.length)) (pre ++ cur)) u
      rw [hw] at hq
      simp only [Option.mem_def, Option.some.injEq] at hq
      subst hq
      simp only [List.take_left]
      exact lastChars_suffix _ _

theorem mergeUnits_length_le (cs ov : Nat) (us : List (List Char)) :
    ∀ pre cur : List Char,
      (∀ u ∈ us, u.length ≤ cs) → (∀ u ∈ us, u ≠ []) →
      (cur = [] → pre = []) → pre.length + cur.length ≤ cs →
      ∀ p ∈ mergeUnits cs ov pre cur us, p.1.length ≤ cs := by
  induction us with
  | nil =>
    intro pre cur _ _ _ hsum p hp
    simp only [mergeUnits, List.mem_singleton] at hp
    subst hp
    simpa using hsum
  | cons u us ih =>
    intro pre cur hle hne hinv hsum p hp
    simp only [mergeUnits] at hp
    by_cases h : cur.isEmpty = true ∨ pre.length + cur.length + u.length ≤ cs
    · rw [if_pos h] at hp
      have hsum' : pre.length + (cur ++ u).length ≤ cs := by
        rcases h with hemp | hok
        · have hcur : cur = [] := List.isEmpty_iff.mp hemp
          have hpre : pre = [] := hinv hcur
          subst hcur; subst hpre
          simpa using hle u (List.mem_cons_self u us)
        · simp only [List.length_append]
          omega
      refine ih pre (cur ++ u) (fun v hv => hle v (List.mem_cons_of_mem u hv))
        (fun v hv => hne v (List.mem_cons_of_mem u hv)) ?_ hsum' p hp
      intro hnil
      rcases List.append_eq_nil.mp hnil with ⟨hc, hu⟩
      exact absurd hu (hne u (List.mem_cons_self u us))
    · rw [if_neg h] at hp
      rcases List.mem_cons.mp hp with hhead | htail
      · subst hhead
        simpa using hsum
      · have hu_le : u.length ≤ cs := hle u (List.mem_cons_self u us)
        have hpre' : (lastChars (min ov (cs - u.length)) (pre ++ cur)).length ≤
            cs - u.length :=
          le_trans (lastChars_length_le _ _) (Nat.min_le_right _ _)
        refine ih _ u (fun v hv => hle v (List.mem_cons_of_mem u hv))
          (fun v hv => hne v (List.mem_cons_of_mem u hv)) ?_ ?_ p htail
        · intro hnil
          exact absurd hnil (hne u (List.mem_cons_self u us))
        · omega

theorem mergeUnits_emits_current (cs ov : Nat) (pre cur : List Char)
    (us : List (List Char)) (hcur : cur ≠ [])
    (hbig : cs < pre.length + cur.length) :
    (pre ++ cur, pre.length) ∈ mergeUnits cs ov pre cur us := by
  cases us with
  | nil => simp [mergeUnits]
  | cons u us =>
    simp only [mergeUnits]
    rw [if_neg]
    · exact List.mem_cons_self _ _
    · rintro (hemp | hok)
      · exact hcur (List.isEmpty_iff.mp hemp)
      · omega

theorem mergeUnits_oversized (cs ov : Nat) (us : List (List Char)) :
    ∀ pre cur : List Char, (∀ v ∈ us, v ≠ []) → (cur = [] → pre = []) →
      ∀ u ∈ us, cs < u.length →
      ∃ p ∈ mergeUnits cs ov pre cur us, p.1 = u ∧ p.2 = 0 := by
  induction us with
  | nil =>
    intro pre cur _ _ u hu
    exact absurd hu (List.not_mem_nil u)
  | cons v us ih =>
    intro pre cur hne hinv u hu hbig
    rcases List.mem_cons.mp hu with huv | hutail
    · subst huv
      simp only [mergeUnits]
      by_cases h : cur.isEmpty = true ∨ pre.length + cur.length + u.length ≤ cs
      · rw [if_pos h]
        have hcur : cur = [] := by
          rcases h with hemp | hok
          · exact List.isEmpty_iff.mp hemp
          · exact absurd hok (by omega)
        have hpre : pre = [] := hinv hcur
        subst hcur; subst hpre
        have hu_ne : ([] : List Char) ++ u ≠ [] := by
          intro hnil
          rw [List.nil_append] at hnil
          subst hnil
          simp at hbig
        refine ⟨([] ++ ([] ++ u), ([] : List Char).length), ?_, by simp, by simp⟩
        exact mergeUnits_emits_current cs ov [] ([] ++ u) us hu_ne (by simpa using hbig)
      · rw [if_neg h]
        have hkeep : min ov (cs - u.length) = 0 := by omega
        rw [hkeep, lastChars_zero]
        refine ⟨([] ++ u, ([] : List Char).length), List.mem_cons_of_mem _ ?_, by simp, by simp⟩
        exact mergeUnits_emits_current cs ov [] u us
          (by intro hnil; subst hnil; simp at hbig) (by simpa using hbig)
    · simp only [mergeUnits]
      by_cases h : cur.isEmpty = true ∨ pre.length + cur.length + v.length ≤ cs
      · rw [if_pos h]
        refine ih pre (cur ++ v) (fun w hw => hne w (List.mem_cons_of_mem v hw)) ?_
          u hutail hbig
        intro hnil
        rcases List.append_eq_nil.mp hnil with ⟨_, hv⟩
        exact absurd hv (hne v (List.mem_cons_self v us))
      · rw [if_neg h]
        obtain ⟨p, hpmem, hpeq⟩ := ih _ v
          (fun w hw => hne w (List.mem_cons_of_mem v hw))
          (fun hnil => absurd hnil (hne v (List.mem_cons_self v us)))
          u hutail hbig
        exact ⟨p, List.mem_cons_of_mem _ hpmem, hpeq⟩

/-! ### Properties of the full chunking pipeline -/

theorem chunkText_drop_flatten (cs ov : Nat) (seps : List (List Char))
    (text : List Char) :
    ((chunkText cs ov seps text).map (fun p => p.1.drop p.2)).flatten = text := by
  unfold chunkText
  cases h : splitUnits cs seps text with
  | nil =>
    have := splitUnits_flatten cs seps text
    rw [h] at this
    simpa using this.symm
  | cons u us =>
    rw [mergeUnits_drop_flatten]
    have := splitUnits_flatten cs seps text
    rw [h] at this
    simpa using this

theorem chunkText_chain (cs ov : Nat) (seps : List (List Char)) (text : List Char) :
    List.Chain' (fun p q => q.1.take q.2 <:+ p.1) (chunkText cs ov seps text) := by
  unfold chunkText
  cases splitUnits cs seps text with
  | nil => simp
  | cons u us => exact mergeUnits_chain cs ov (u :: us) [] []

theorem chunkText_head_zero (cs ov : Nat) (seps : List (List Char))
    (text : List Char) : ∀ p ∈ (chunkText cs ov seps text).head?, p.2 = 0 := by
  unfold chunkText
  cases splitUnits cs seps text with
  | nil => simp
  | cons u us =>
    intro p hp
    obtain ⟨w, hw⟩ := mergeUnits_head cs ov (u :: us) [] []
    rw [hw] at hp
    simp only [Option.mem_def, Option.some.injEq] at hp
    subst hp
    rfl

/-! ### Lemmas about the loader and the orchestrator -/

theorem loadFiles_all_ok (fs : List FileEntry)
    (h : ∀ f ∈ fs, (f.parseResult).isOk = true) :
    loadFiles fs = Except.ok (okDocs fs) := by
  induction fs with
  | nil => rfl
  | cons f fs ih =>
    have hf := h f (List.mem_cons_self f fs)
    cases hpr : f.parseResult with
    | error e => rw [hpr] at hf; simp [Except.isOk, Except.toBool] at hf
    | ok ds =>
      simp only [loadFiles, hpr, ih (fun g hg => h g (List.mem_cons_of_mem f hg))]
      simp [okDocs, hpr]

theorem loadFiles_first_error (pre : List FileEntry) (f : FileEntry)
    (post : List FileEntry) (e : String)
    (hpre : ∀ g ∈ pre, (g.parseResult).isOk = true)
    (hf : f.parseResult = Except.error e) :
    loadFiles (pre ++ f :: post) = Except.error e := by
  induction pre with
  | nil => simp only [List.nil_append, loadFiles, hf]
  | cons g pre ih =>
    have hg := hpre g (List.mem_cons_self g pre)
    cases hpr : g.parseResult with
    | error e' => rw [hpr] at hg; simp [Except.isOk, Except.toBool] at hg
    | ok ds =>
      simp only [List.cons_append, loadFiles, hpr, List.append_eq,
        ih (fun g' hg' => hpre g' (List.mem_cons_of_mem g hg'))]

theorem initialize_notes_load_error {env : InitEnv} {e : String}
    (h : load_any_notes (ensureNotesDir env.dir) = Except.error e) :
    initialize_notes env =
      { emptyReader with notes_content := "Error loading notes: " ++ e } := by
  unfold initialize_notes
  rw [h]

theorem initialize_notes_no_docs {env : InitEnv}
    (h : load_any_notes (ensureNotesDir env.dir) = Except.ok []) :
    initialize_notes env =
      { emptyReader with
          notes_content := "No notes found. Please add some documents to the ./notes folder." } := by
  unfold initialize_notes
  rw [h]
  rfl

theorem initialize_notes_embed_error {env : InitEnv} {e : String}
    {ds : List Document}
    (hload : load_any_notes (ensureNotesDir env.dir) = Except.ok ds)
    (hne : ds ≠ []) (hemb : env.embedOutcome = Except.error e) :
    initialize_notes env =
      { emptyReader with notes_content := "Error loading notes: " ++ e } := by
  unfold initialize_notes
  rw [hload]
  obtain ⟨d0, ds', rfl⟩ := List.exists_cons_of_ne_nil hne
  simp only [List.isEmpty_cons, Bool.false_eq_true, if_false, hemb]

theorem initialize_notes_success {env : InitEnv} {ds : List Document}
    (hload : load_any_notes (ensureNotesDir env.dir) = Except.ok ds)
    (hne : ds ≠ []) (hemb : env.embedOutcome = Except.ok ()) :
    initialize_notes env =
      { vectorstore := some (split_documents config ds)
        retriever := some (split_documents config ds)
        rag_chain := some (split_documents config ds)
        notes_content := format_notes_for_display ds } := by
  unfold initialize_notes
  rw [hload]
  obtain ⟨d0, ds', rfl⟩ := List.exists_cons_of_ne_nil hne
  simp only [List.isEmpty_cons, Bool.false_eq_true, if_false, hemb]
  rfl

theorem summarize_notes_of_no_chain {r : NoteReader} (h : r.rag_chain = none)
    (q : String) (qenv : QueryEnv) :
    summarize_notes r q qenv =
      ("Notes system not properly initialized. Please check that you have documents in the ./notes folder.",
        0, 0) := by
  unfold summarize_notes
  rw [h]

/-! ### Claim theorems -/

/-- C3: for every source document, concatenating the chunks produced by
the chunker in sequence order, with the overlapping portion of each
chunk removed, reconstructs the document's original text exactly.  In
addition, the recorded overlap of each chunk is genuinely shared text:
it is a suffix of the previous chunk, and the first chunk carries no
overlap. -/
theorem chunking_reconstructs (cs ov : Nat) (seps : List (List Char))
    (text : List Char) :
    ((chunkText cs ov seps text).map (fun p => p.1.drop p.2)).flatten = text ∧
    List.Chain' (fun p q => q.1.take q.2 <:+ p.1) (chunkText cs ov seps text) ∧
    ∀ p ∈ (chunkText cs ov seps text).head?, p.2 = 0 :=
  ⟨chunkText_drop_flatten cs ov seps text, chunkText_chain cs ov seps text,
    chunkText_head_zero cs ov seps text⟩

/-- Witness for C3 at a concrete document. -/
theorem chunking_reconstructs_check :
    ((chunkText 5 2 [[' '], []] "ab cd ef".data).map
      (fun p => p.1.drop p.2)).flatten = "ab cd ef".data ∧
    List.Chain' (fun p q => q.1.take q.2 <:+ p.1)
      (chunkText 5 2 [[' '], []] "ab cd ef".data) :=
  ⟨(chunking_reconstructs 5 2 [[' '], []] "ab cd ef".data).1,
    (chunking_reconstructs 5 2 [[' '], []] "ab cd ef".data).2.1⟩

/-- C4: when every indivisible unit obtained from the separator
hierarchy fits in `chunkSize`, every produced chunk has length at most
`chunkSize`; and an indivisible unit longer than `chunkSize` appears in
the output as its own chunk, whole and with no overlap prefix, rather
than truncated or dropped. -/
theorem chunk_size_bound (cs ov : Nat) (seps : List (List Char))
    (text : List Char) :
    ((∀ u ∈ splitUnits cs seps text, u.length ≤ cs) →
      ∀ p ∈ chunkText cs ov seps text, p.1.length ≤ cs) ∧
    (∀ u ∈ splitUnits cs seps text, cs < u.length →
      ∃ p ∈ chunkText cs ov seps text, p.1 = u ∧ p.2 = 0) := by
  constructor
  · intro hle p hp
    unfold chunkText at hp
    cases h : splitUnits cs seps text with
    | nil => rw [h] at hp; simp at hp
    | cons u us =>
      rw [h] at hp
      refine mergeUnits_length_le cs ov (u :: us) [] []
        (fun v hv => hle v (h ▸ hv))
        (fun v hv => splitUnits_ne_nil cs seps text v (h ▸ hv))
        (fun _ => rfl) (by simp) p hp
  · intro u hu hbig
    unfold chunkText
    cases h : splitUnits cs seps text with
    | nil => rw [h] at hu; simp at hu
    | cons v vs =>
      rw [h] at hu
      exact mergeUnits_oversized cs ov (v :: vs) [] []
        (fun w hw => splitUnits_ne_nil cs seps text w (h ▸ hw))
        (fun _ => rfl) u hu hbig

/-- Witness for C4: with `chunkSize = 5` every chunk of a document with
small units fits the bound, and a 9-character indivisible unit appears
whole as its own chunk. -/
theorem chunk_size_bound_check :
    (∀ p ∈ chunkText 5 2 [[' ']] "ab cd".data, p.1.length ≤ 5) ∧
    (∃ p ∈ chunkText 5 2 [[' ']] "abcdefgh ab".data,
      p.1 = "abcdefgh ".data ∧ p.2 = 0) :=
  ⟨(chunk_size_bound 5 2 [[' ']] "ab cd".data).1 (by decide),
    (chunk_size_bound 5 2 [[' ']] "abcdefgh ab".data).2 "abcdefgh ".data
      (by decide) (by decide)⟩

set_option maxRecDepth 200000 in
/-- C9: with `chunkSize = 100` and `chunkOverlap = 20`, chunking a
250-character document with no natural separators produces exactly 3
chunks — of lengths 100, 100 and 90 — and each chunk after the first
re-includes exactly 20 characters of overlap, which coincide with the
tail of the previous chunk. -/
theorem overlap_scenario_250 :
    chunkText 100 20 config.separators (List.replicate 250 'a') =
      [(List.replicate 100 'a', 0), (List.replicate 100 'a', 20),
        (List.replicate 90 'a', 20)] ∧
    (chunkText 100 20 config.separators (List.replicate 250 'a')).length = 3 ∧
    List.Chain' (fun p q => q.1.take q.2 <:+ p.1)
      (chunkText 100 20 config.separators (List.replicate 250 'a')) :=
  ⟨by decide, by decide,
    chunkText_chain 100 20 config.separators (List.replicate 250 'a')⟩

/-- C1 counterexample: an embedding failure during startup is captured
as "Error loading notes: boom" in `notes_content`, yet a subsequent
`summarize_notes` call answers with the fixed not-initialized message,
not with that captured reason. -/
theorem failed_state_answer_counterexample :
    (initialize_notes envEmbedFail).notes_content = "Error loading notes: boom" ∧
    (summarize_notes (initialize_notes envEmbedFail) "What do my notes say?" qenvOk).1 ≠
      "Error loading notes: boom" := by
  constructor
  · rfl
  · decide

/-- C1 (amended): if any exception is raised during initialization —
while loading documents or while building the index — the pipeline
enters the failed state with the captured reason stored in
`notes_content`, the RAG chain stays unset, and every subsequent
`summarize_notes` call returns the fixed not-initialized advisory
message (not the captured reason) without raising and without any
external call. -/
theorem failed_state_behavior (env : InitEnv) (e : String)
    (h : load_any_notes (ensureNotesDir env.dir) = Except.error e ∨
      (∃ ds, load_any_notes (ensureNotesDir env.dir) = Except.ok ds ∧ ds ≠ [] ∧
        env.embedOutcome = Except.error e)) :
    (initialize_notes env).notes_content = "Error loading notes: " ++ e ∧
    (initialize_notes env).rag_chain = none ∧
    ∀ q qenv, summarize_notes (initialize_notes env) q qenv =
      ("Notes system not properly initialized. Please check that you have documents in the ./notes folder.",
        0, 0) := by
  have hinit : initialize_notes env =
      { emptyReader with notes_content := "Error loading notes: " ++ e } := by
    rcases h with herr | ⟨ds, hok, hne, hemb⟩
    · exact initialize_notes_load_error herr
    · exact initialize_notes_embed_error hok hne hemb
  rw [hinit]
  exact ⟨rfl, rfl, fun q qenv => summarize_notes_of_no_chain rfl q qenv⟩

/-- Witness for C1 (amended) at a concrete embedding failure. -/
theorem failed_state_behavior_check :
    (initialize_notes envEmbedFail).notes_content = "Error loading notes: boom" ∧
    (initialize_notes envEmbedFail).rag_chain = none ∧
    summarize_notes (initialize_notes envEmbedFail) "q" qenvOk =
      ("Notes system not properly initialized. Please check that you have documents in the ./notes folder.",
        0, 0) :=
  have h := failed_state_behavior envEmbedFail "boom"
    (Or.inr ⟨[⟨"./notes/a.md", "Paris is the capital of France."⟩],
      rfl, by decide, rfl⟩)
  ⟨h.1, h.2.1, h.2.2 "q" qenvOk⟩

/-- C2 counterexample: in a directory whose second file fails to parse,
loading does not complete with the successfully parsed documents of the
first and third files — it aborts with the parse error instead. -/
theorem loader_abort_counterexample :
    load_any_notes dirSecondBad = Except.error "corrupt" ∧
    load_any_notes dirSecondBad ≠
      Except.ok [⟨"./notes/a.md", "A"⟩, ⟨"./notes/c.md", "C"⟩] := by
  constructor
  · rfl
  · decide

/-- C2 (amended): `load_any_notes` loads the discovered files
sequentially with no per-file exception handling: when every file
parses, it returns all their documents in traversal order, but the
first parse failure aborts the whole load and propagates that error, so
the remaining files' documents are not returned. -/
theorem loader_sequential_abort (d : NotesDir) :
    ((∀ f ∈ d.mdTxtFiles ++ d.pdfFiles ++ d.docxFiles,
        (f.parseResult).isOk = true) →
      load_any_notes d =
        Except.ok (okDocs (d.mdTxtFiles ++ d.pdfFiles ++ d.docxFiles))) ∧
    (∀ pre f post e,
      d.mdTxtFiles ++ d.pdfFiles ++ d.docxFiles = pre ++ f :: post →
      (∀ g ∈ pre, (g.parseResult).isOk = true) →
      f.parseResult = Except.error e →
      load_any_notes d = Except.error e) := by
  constructor
  · intro h
    exact loadFiles_all_ok _ h
  · intro pre f post e hsplit hpre hf
    unfold load_any_notes
    rw [hsplit]
    exact loadFiles_first_error pre f post e hpre hf

/-- Witness for C2 (amended): an all-good directory loads every
document; the directory whose second file is corrupt aborts with that
file's error. -/
theorem loader_sequential_abort_check :
    load_any_notes dirOneGood =
      Except.ok [⟨"./notes/a.md", "Paris is the capital of France."⟩] ∧
    load_any_notes dirSecondBad = Except.error "corrupt" :=
  ⟨(loader_sequential_abort dirOneGood).1 (by decide),
    (loader_sequential_abort dirSecondBad).2
      [⟨"./notes/a.md", Except.ok [⟨"./notes/a.md", "A"⟩]⟩]
      ⟨"./notes/b.md", Except.error "corrupt"⟩
      [⟨"./notes/c.md", Except.ok [⟨"./notes/c.md", "C"⟩]⟩]
      "corrupt" (by decide) (by decide) (by decide)⟩

/-- C5: when initialization finds zero documents, the pipeline enters
the degraded no-documents state; every subsequent query returns the
fixed advisory message with zero retrieval calls and zero Answer
Generator calls. -/
theorem degraded_no_documents (env : InitEnv)
    (h : load_any_notes (ensureNotesDir env.dir) = Except.ok []) :
    (initialize_notes env).notes_content =
      "No notes found. Please add some documents to the ./notes folder." ∧
    (initialize_notes env).rag_chain = none ∧
    ∀ q qenv, summarize_notes (initialize_notes env) q qenv =
      ("Notes system not properly initialized. Please check that you have documents in the ./notes folder.",
        0, 0) := by
  rw [initialize_notes_no_docs h]
  exact ⟨rfl, rfl, fun q qenv => summarize_notes_of_no_chain rfl q qenv⟩

/-- Witness for C5 at an existing but empty notes directory. -/
theorem degraded_no_documents_check :
    (initialize_notes envEmptyDir).notes_content =
      "No notes found. Please add some documents to the ./notes folder." ∧
    summarize_notes (initialize_notes envEmptyDir) "q" qenvOk =
      ("Notes system not properly initialized. Please check that you have documents in the ./notes folder.",
        0, 0) :=
  have h := degraded_no_documents envEmptyDir rfl
  ⟨h.1, h.2.2 "q" qenvOk⟩

/-- C6: if the root notes directory does not exist at startup, it is
created empty, the loader returns an empty document list rather than an
error, and the run completes into the degraded state whose queries are
answered with the advisory string. -/
theorem missing_dir_cold_start (env : InitEnv) (h : env.dir = none) :
    ensureNotesDir env.dir = emptyNotesDir ∧
    load_any_notes (ensureNotesDir env.dir) = Except.ok [] ∧
    (initialize_notes env).notes_content =
      "No notes found. Please add some documents to the ./notes folder." ∧
    ∀ q qenv, (summarize_notes (initialize_notes env) q qenv).1 =
      "Notes system not properly initialized. Please check that you have documents in the ./notes folder." := by
  have hdir : ensureNotesDir env.dir = emptyNotesDir := by rw [h]; rfl
  have hload : load_any_notes (ensureNotesDir env.dir) = Except.ok [] := by
    rw [hdir]; rfl
  refine ⟨hdir, hload, ?_, ?_⟩
  · rw [initialize_notes_no_docs hload]
  · intro q qenv
    rw [initialize_notes_no_docs hload, summarize_notes_of_no_chain rfl]

/-- Witness for C6 at an absent notes directory. -/
theorem missing_dir_cold_start_check :
    ensureNotesDir envNoDir.dir = emptyNotesDir ∧
    load_any_notes (ensureNotesDir envNoDir.dir) = Except.ok [] ∧
    (summarize_notes (initialize_notes envNoDir) "q" qenvOk).1 =
      "Notes system not properly initialized. Please check that you have documents in the ./notes folder." :=
  have h := missing_dir_cold_start envNoDir rfl
  ⟨h.1, h.2.1, h.2.2.2 "q" qenvOk⟩

/-- C7: the context assembler concatenates, in the given retrieval
order, each chunk's text prefixed with a bracketed source tag holding
the originating file's base filename, joined by the fixed separator;
the tag never contains a path separator, so it never leaks the full
path.  Being a pure function of its input, it is deterministic. -/
theorem format_docs_spec (docs : List Document) :
    format_docs docs =
      String.intercalate "\n\n---\n\n"
        (docs.map (fun d =>
          "[SOURCE: " ++ baseName d.source ++ "]\n" ++ d.page_content)) ∧
    ∀ d ∈ docs, '/' ∉ (baseName d.source).data := by
  refine ⟨rfl, ?_⟩
  intro d _ hc
  simp only [baseName, List.mem_reverse] at hc
  have := List.mem_takeWhile_imp hc
  simp at this

/-- Witness for C7 at a concrete retrieval result with full paths. -/
theorem format_docs_spec_check :
    format_docs [⟨"./notes/a.md", "Paris."⟩] =
      "[SOURCE: a.md]\nParis." ∧
    '/' ∉ (baseName (Document.mk "./notes/a.md" "Paris.").source).data :=
  ⟨by rw [(format_docs_spec [⟨"./notes/a.md", "Paris."⟩]).1]; rfl,
    (format_docs_spec [⟨"./notes/a.md", "Paris."⟩]).2
      ⟨"./notes/a.md", "Paris."⟩ (List.mem_singleton.mpr rfl)⟩

/-- C8: for every question and in every pipeline state,
`summarize_notes` returns a string — the not-initialized advisory, the
generator's answer, or an error message wrapping the failed external
call — and never propagates an exception. -/
theorem summarize_total (r : NoteReader) (q : String) (env : QueryEnv) :
    (r.rag_chain = none ∧ summarize_notes r q env =
      ("Notes system not properly initialized. Please check that you have documents in the ./notes folder.",
        0, 0)) ∨
    (∃ e, env.retrieved q = Except.error e ∧
      summarize_notes r q env = ("Error processing your question: " ++ e, 1, 0)) ∨
    (∃ ds resp, env.retrieved q = Except.ok ds ∧
      env.generate (RAG_PROMPT q (format_docs ds)) = Except.ok resp ∧
      summarize_notes r q env = (resp, 1, 1)) ∨
    (∃ ds e, env.retrieved q = Except.ok ds ∧
      env.generate (RAG_PROMPT q (format_docs ds)) = Except.error e ∧
      summarize_notes r q env = ("Error processing your question: " ++ e, 1, 1)) := by
  cases hchain : r.rag_chain with
  | none => exact Or.inl ⟨rfl, summarize_notes_of_no_chain hchain q env⟩
  | some docs =>
    cases hret : env.retrieved q with
    | error e =>
      refine Or.inr (Or.inl ⟨e, rfl, ?_⟩)
      unfold summarize_notes
      rw [hchain]
      simp only [hret]
    | ok ds =>
      cases hgen : env.generate (RAG_PROMPT q (format_docs ds)) with
      | ok resp =>
        refine Or.inr (Or.inr (Or.inl ⟨ds, resp, rfl, hgen, ?_⟩))
        unfold summarize_notes
        rw [hchain]
        simp only [hret, hgen]
      | error e =>
        refine Or.inr (Or.inr (Or.inr ⟨ds, e, rfl, hgen, ?_⟩))
        unfold summarize_notes
        rw [hchain]
        simp only [hret, hgen]

/-- C10: the RAG chain is set only when the vector store and retriever
are set and initialization completed fully — the load succeeded with at
least one document and the index build succeeded; in every other state
all three stay unset and a query performs zero retrieval calls and zero
generation calls. -/
theorem chain_invariant (env : InitEnv) :
    ((initialize_notes env).rag_chain.isSome = true →
      (initialize_notes env).vectorstore.isSome = true ∧
      (initialize_notes env).retriever.isSome = true ∧
      ∃ ds, load_any_notes (ensureNotesDir env.dir) = Except.ok ds ∧
        ds ≠ [] ∧ env.embedOutcome = Except.ok ()) ∧
    ((initialize_notes env).rag_chain = none →
      (initialize_notes env).vectorstore = none ∧
      (initialize_notes env).retriever = none ∧
      ∀ q qenv, summarize_notes (initialize_notes env) q qenv =
        ("Notes system not properly initialized. Please check that you have documents in the ./notes folder.",
          0, 0)) := by
  cases hload : load_any_notes (ensureNotesDir env.dir) with
  | error e =>
    rw [initialize_notes_load_error hload]
    refine ⟨fun hsome => by simp [emptyReader] at hsome, fun _ => ⟨rfl, rfl, ?_⟩⟩
    exact fun q qenv => summarize_notes_of_no_chain rfl q qenv
  | ok ds =>
    cases ds with
    | nil =>
      rw [initialize_notes_no_docs hload]
      refine ⟨fun hsome => by simp [emptyReader] at hsome, fun _ => ⟨rfl, rfl, ?_⟩⟩
      exact fun q qenv => summarize_notes_of_no_chain rfl q qenv
    | cons d0 ds' =>
      cases hemb : env.embedOutcome with
      | error e =>
        rw [initialize_notes_embed_error hload (by simp) hemb]
        refine ⟨fun hsome => by simp [emptyReader] at hsome, fun _ => ⟨rfl, rfl, ?_⟩⟩
        exact fun q qenv => summarize_notes_of_no_chain rfl q qenv
      | ok u =>
        rw [initialize_notes_success hload (by simp) (hemb.trans rfl)]
        refine ⟨fun _ => ⟨rfl, rfl, d0 :: ds', rfl, by simp, rfl⟩,
          fun hnone => by simp at hnone⟩

/-- Witness for C10: a fully successful run has all three set, a failed
run has none of them and queries make no external calls. -/
theorem chain_invariant_check :
    ((initialize_notes envAllGood).vectorstore.isSome = true ∧
      (initialize_notes envAllGood).retriever.isSome = true ∧
      ∃ ds, load_any_notes (ensureNotesDir envAllGood.dir) = Except.ok ds ∧
        ds ≠ [] ∧ envAllGood.embedOutcome = Except.ok ()) ∧
    ((initialize_notes envEmbedFail).vectorstore = none ∧
      (initialize_notes envEmbedFail).retriever = none ∧
      summarize_notes (initialize_notes envEmbedFail) "q" qenvOk =
        ("Notes system not properly initialized. Please check that you have documents in the ./notes folder.",
          0, 0)) :=
  have h1 := (chain_invariant envAllGood).1 (by decide)
  have h2 := (chain_invariant envEmbedFail).2 (by decide)
  ⟨h1, h2.1, h2.2.1, h2.2.2 "q" qenvOk⟩

end NoteApp
